import Mathlib

/-!
Shallow embedding of the core of `spotify-quick-actions`
(`src/spotify_client.rs`), covering:

* the verified-mutation engine `verify_track_liked` / `verify_track_unliked`
  (lines 416-553), including its pre-flight check, progressive backoff,
  corrective re-issue guard `attempt >= max_verification_attempts - 2`, and
  exhaustion behaviour;
* the manager constructors `new` / `new_with_fresh_auth` / `with_config`
  (lines 36-57);
* the reactive token validation `ensure_token_valid` (lines 272-287);
* the identifier normalizer `parse_track_id` (lines 556-577) together with a
  model of the `rspotify` dependency's `TrackId::from_id` / `TrackId::from_uri`
  validation that it calls into;
* the token-cache clearing `clear_token_cache` (lines 594-604).

Rust strings are modelled as `List Char`; machine integers as `Nat` with an
explicit `% 2 ^ 64` where `u64` arithmetic occurs, and the one `u32`
subtraction whose underflow matters (`max_verification_attempts - 2`) is
modelled by a checked subtraction `u32Sub` that reports underflow (a panic in
debug builds) as an `Except` error.  Remote I/O (the membership reads issued
by `is_track_liked` inside the verification loop) is modelled by an oracle
`reads : Nat -> ReadOutcome` giving the outcome of the k-th read of the run
(index 0 is the pre-flight read, index k is the read of loop attempt k).
Each run records a trace: the executed backoff sleeps (in ms, in order) and
the loop attempts on which a corrective write was re-issued.
-/

/-- Outcome of one membership read (`is_track_liked`): a successfully
reported liked-state, a transient API failure, or an authentication failure
(e.g. `ensure_token_valid`'s refresh failing inside `is_track_liked`).
The Rust caller receives both failures as an `anyhow` error; the split is kept
in the model so that theorems can compare how the loop treats the two. -/
inductive ReadOutcome where
  | reported (liked : Bool)
  | transientErr
  | authErr
deriving DecidableEq

/-- `VerificationResult` (src/spotify_client.rs lines 22-28), without the
`track_info` payload, which is threaded through unchanged.
`verified_after_ms` is the elapsed time; in this embedding only the backoff
sleeps consume time, so it is the sum of the executed sleeps (mod 2^64,
matching the `as u64` cast). -/
structure VerificationResult where
  success : Bool
  verified_after_ms : Nat
  attempts : Nat
deriving DecidableEq

/-- A verification run together with its observable side effects: the list of
executed backoff sleeps (ms, in order) and the loop attempt numbers on which
the corrective write (`current_user_saved_tracks_add` / `_delete`) was
re-issued.  The corrective write's own failure is ignored by the code, so only
its issuance is recorded. -/
structure VerifyTrace where
  result : VerificationResult
  sleeps : List Nat
  correctiveWrites : List Nat
deriving DecidableEq

/-- Checked `u32` subtraction: `some (a - b)` when it does not underflow,
`none` on underflow (an overflow panic in debug builds). -/
def u32Sub (a b : Nat) : Option Nat :=
  if b ≤ a then some (a - b) else none

/-- The body of `for attempt in 1..=self.max_verification_attempts`
(src/spotify_client.rs lines 439-473 and 509-543), iterated over the list of
remaining attempt numbers.  `desired` is `true` for `verify_track_liked` and
`false` for `verify_track_unliked`; the two Rust functions are this loop with
the polarity of the `Ok(true)` / `Ok(false)` arms swapped.  Reaching the
corrective-reissue guard `attempt >= self.max_verification_attempts - 2` with
`max_verification_attempts < 2` underflows the `u32` subtraction and is
modelled as `Except.error ()`. -/
def verifyLoop (desired : Bool) (reads : Nat → ReadOutcome)
    (delayMs maxAttempts : Nat) : List Nat → Except Unit VerifyTrace
  | [] =>
    .ok ⟨⟨false, 0, maxAttempts⟩, [], []⟩
  | attempt :: rest =>
    let delay := (delayMs + (attempt - 1) * 500) % 2 ^ 64
    match reads attempt with
    | .reported b =>
      if b = desired then
        .ok ⟨⟨true, delay, attempt⟩, [delay], []⟩
      else
        match u32Sub maxAttempts 2 with
        | none => .error ()
        | some threshold =>
          match verifyLoop desired reads delayMs maxAttempts rest with
          | .error e => .error e
          | .ok t =>
            .ok ⟨⟨t.result.success, (delay + t.result.verified_after_ms) % 2 ^ 64,
                  t.result.attempts⟩,
                 delay :: t.sleeps,
                 (if threshold ≤ attempt then [attempt] else []) ++ t.correctiveWrites⟩
    | _ =>
      match verifyLoop desired reads delayMs maxAttempts rest with
      | .error e => .error e
      | .ok t =>
        .ok ⟨⟨t.result.success, (delay + t.result.verified_after_ms) % 2 ^ 64,
              t.result.attempts⟩,
             delay :: t.sleeps, t.correctiveWrites⟩

/-- A whole verification run (`verify_track_liked` at `desired = true`,
`verify_track_unliked` at `desired = false`): the pre-flight membership check
before the loop (lines 421-437 / 491-507) — returning
`success, attempts = 0` with no sleep when it already reports `desired`,
falling through into the loop both when it reports the opposite and when it
errors — followed by the attempt loop over `1..=maxAttempts`. -/
def verifyTrack (desired : Bool) (reads : Nat → ReadOutcome)
    (delayMs maxAttempts : Nat) : Except Unit VerifyTrace :=
  match reads 0 with
  | .reported b =>
    if b = desired then .ok ⟨⟨true, 0, 0⟩, [], []⟩
    else verifyLoop desired reads delayMs maxAttempts (List.range' 1 maxAttempts)
  | _ => verifyLoop desired reads delayMs maxAttempts (List.range' 1 maxAttempts)

/-- The verification-policy fields of `SpotifyManager`
(src/spotify_client.rs lines 30-34); `verification_delay_ms : u64`,
`max_verification_attempts : u32`. -/
structure SpotifyManager where
  verification_delay_ms : Nat
  max_verification_attempts : Nat
deriving DecidableEq

/-- `SpotifyManager::with_config` (lines 52-57): accepts any delay and any
attempt budget, including 0 and 1. -/
def SpotifyManager.with_config (verification_delay_ms max_verification_attempts : Nat) :
    SpotifyManager :=
  ⟨verification_delay_ms % 2 ^ 64, max_verification_attempts % 2 ^ 32⟩

/-- `SpotifyManager::new` (lines 36-40): `with_config(config, 1000, 8)`. -/
def SpotifyManager.new : SpotifyManager :=
  SpotifyManager.with_config 1000 8

/-- `SpotifyManager::new_with_fresh_auth` (lines 42-50):
`with_config(config, 750, 3)`. -/
def SpotifyManager.new_with_fresh_auth : SpotifyManager :=
  SpotifyManager.with_config 750 3

/-- `SpotifyManager::verify_track_liked` (lines 416-483). -/
def SpotifyManager.verify_track_liked (m : SpotifyManager)
    (reads : Nat → ReadOutcome) : Except Unit VerifyTrace :=
  verifyTrack true reads m.verification_delay_ms m.max_verification_attempts

/-- `SpotifyManager::verify_track_unliked` (lines 486-553). -/
def SpotifyManager.verify_track_unliked (m : SpotifyManager)
    (reads : Nat → ReadOutcome) : Except Unit VerifyTrace :=
  verifyTrack false reads m.verification_delay_ms m.max_verification_attempts

/-- `rspotify` `Token` (the persisted record): access token, optional refresh
token, optional absolute expiry timestamp. -/
structure Token where
  access_token : List Char
  refresh_token : Option (List Char)
  expires_at : Option Nat
deriving DecidableEq

/-- Whether the token is visibly expired at time `now`: `expires_at` has
passed. -/
def Token.isExpiredAt (tok : Token) (now : Nat) : Bool :=
  match tok.expires_at with
  | some e => decide (e < now)
  | none => false

/-- `SpotifyManager::ensure_token_valid` (src/spotify_client.rs lines
272-287), run before every authenticated operation (`get_current_track`,
`like_current_track`, `unlike_current_track`, `is_track_liked`).  The code
probes with `self.client.current_user()`; on success it returns immediately
with the live token untouched; on any probe failure it refreshes (and
persists) the token, propagating a refresh failure as an error.
`currentUserOk` is the probe's outcome, `refreshResult` the outcome of
`refresh_token()` (the persistence step is not separately modelled).  The
returned pair is the token the subsequent authenticated call will use and
whether a refresh was performed before that call. -/
def ensure_token_valid (tok : Token) (currentUserOk : Bool)
    (refreshResult : Option Token) : Except Unit (Token × Bool) :=
  if currentUserOk then .ok (tok, false)
  else
    match refreshResult with
    | some t => .ok (t, true)
    | none => .error ()

/-- `clear_token_cache` (src/spotify_client.rs lines 594-604) over a
filesystem modelled as the optional persisted token record: if the cache file
exists it is removed; if it is already absent that is reported as success, not
an error. -/
def clear_token_cache : Option Token → Option Token × Except Unit Unit
  | some _ => (none, .ok ())
  | none => (none, .ok ())

/-- The token store's load operation (`read_token_cache` over the same
filesystem model): `none` models `NotFound` (a missing file is not an
error). -/
def read_token_cache (cache : Option Token) : Option Token :=
  cache

/-- Prefix matching over Rust strings: `some rest` when `l = pre ++ rest`. -/
def matchStart : List Char → List Char → Option (List Char)
  | [], l => some l
  | _ :: _, [] => none
  | p :: ps, c :: cs => if c = p then matchStart ps cs else none

/-- Rust `str::starts_with`. -/
def starts_with (pre l : List Char) : Bool :=
  (matchStart pre l).isSome

/-- Rust `str::split(sep)` for a one-char pattern, e.g.
`"a//b".split('/') = ["a", "", "b"]` and `"".split('/') = [""]`. -/
def splitOnChar (sep : Char) : List Char → List (List Char)
  | [] => [[]]
  | c :: rest =>
    if c = sep then [] :: splitOnChar sep rest
    else
      match splitOnChar sep rest with
      | [] => [[c]]
      | h :: t => (c :: h) :: t

/-- Rust `str::rsplit_once(sep)`: split at the last occurrence of `sep`. -/
def rsplitOnceChar (sep : Char) : List Char → Option (List Char × List Char)
  | [] => none
  | c :: rest =>
    match rsplitOnceChar sep rest with
    | some (a, b) => some (c :: a, b)
    | none => if c = sep then some ([], rest) else none

/-- Rust `str::len()`: the UTF-8 byte length. -/
def utf8Len (l : List Char) : Nat :=
  (l.map Char.utf8Size).sum

/-- Model of the `rspotify` dependency's id validation (`Id::id_is_valid`):
a candidate id is valid when it is nonempty and every character is ASCII
alphanumeric. -/
def rsIdIsValid (s : List Char) : Bool :=
  !s.isEmpty && s.all (fun c => c.isAlphanum)

/-- Model of `rspotify`'s `TrackId::from_id`: returns the id unchanged when it
passes validation, an error (`none`) otherwise. -/
def rsTrackIdFromId (s : List Char) : Option (List Char) :=
  if rsIdIsValid s then some s else none

/-- Model of `rspotify`'s `TrackId::from_uri`: strip the `spotify` prefix and
its separator, split the remainder at the last separator into item type and
id, require the type to be `track`, and validate the id with `from_id`.
`parse_track_id` only calls this behind a `starts_with("spotify:track:")`
guard, so only the colon-separated form is modelled (the slash-separated URI
form the dependency also accepts is unreachable from this code). -/
def rsTrackIdFromUri (uri : List Char) : Option (List Char) :=
  match matchStart ("spotify:".data) uri with
  | none => none
  | some rest =>
    match rsplitOnceChar ':' rest with
    | none => none
    | some (tpe, id) =>
      if tpe = ("track".data) then rsTrackIdFromId id else none

/-- The fallback cleanup of `parse_track_id`'s third branch
(src/spotify_client.rs lines 566-572): take the substring after the last `/`
(`split('/').last()`), then strip everything from the first `?`
(`split('?').next()`); the `unwrap_or(track_id_str)` defaults are kept even
though the splits are never empty. -/
def cleanId (track_id_str : List Char) : List Char :=
  (splitOnChar '?' ((splitOnChar '/' track_id_str).getLastD track_id_str)).headD
    track_id_str

/-- `SpotifyManager::parse_track_id` (src/spotify_client.rs lines 556-577).
Branches, in order: the `spotify:track:` URI form via the dependency's
`from_uri`; a 22-byte fully alphanumeric bare id via `from_id`; otherwise the
URL fallback `from_id(cleanId ...)`.  `none` models the `Err` cases, which the
specification lumps together as `InvalidIdentifier`.  (Rust's
`char::is_alphanumeric` in the second branch is Unicode-aware; the model
checks ASCII alphanumerics, which does not change any outcome because a
non-ASCII candidate is rejected by the dependency's ASCII-only validation in
both the second and third branches, which coincide on slash-free,
question-mark-free inputs.) -/
def parse_track_id (track_id_str : List Char) : Option (List Char) :=
  if starts_with ("spotify:track:".data) track_id_str then
    rsTrackIdFromUri track_id_str
  else if utf8Len track_id_str == 22 && track_id_str.all (fun c => c.isAlphanum) then
    rsTrackIdFromId track_id_str
  else
    rsTrackIdFromId (cleanId track_id_str)

instance : DecidableEq (Except Unit VerifyTrace) :=
  fun a b =>
    match a, b with
    | .ok x, .ok y =>
      if h : x = y then .isTrue (by rw [h]) else .isFalse (fun e => h (Except.ok.inj e))
    | .error x, .error y => .isTrue (by cases x; cases y; rfl)
    | .ok _, .error _ => .isFalse (fun e => Except.noConfusion e)
    | .error _, .ok _ => .isFalse (fun e => Except.noConfusion e)

/-! ### Helper lemmas about the string primitives -/

theorem splitOnChar_ne_nil (sep : Char) (l : List Char) : splitOnChar sep l ≠ [] := by
  cases l with
  | nil => simp [splitOnChar]
  | cons c rest =>
    simp only [splitOnChar]
    split
    · simp
    · split <;> simp

theorem splitOnChar_not_mem (sep : Char) (l : List Char) (h : ∀ c ∈ l, c ≠ sep) :
    splitOnChar sep l = [l] := by
  induction l with
  | nil => rfl
  | cons c rest ih =>
    have hc : c ≠ sep := h c (by simp)
    have hr : splitOnChar sep rest = [rest] := ih (fun x hx => h x (by simp [hx]))
    simp [splitOnChar, if_neg hc, hr]

theorem splitOnChar_append (sep : Char) (a t : List Char) :
    splitOnChar sep (a ++ sep :: t) = splitOnChar sep a ++ splitOnChar sep t := by
  induction a with
  | nil => simp [splitOnChar]
  | cons c a' ih =>
    obtain ⟨h0, t0, ha'⟩ := List.exists_cons_of_ne_nil (splitOnChar_ne_nil sep a')
    by_cases hc : c = sep
    · simp [List.cons_append, splitOnChar, if_pos hc, ih]
    · simp [List.cons_append, splitOnChar, if_neg hc, ih, ha']

theorem matchStart_append (p l : List Char) : matchStart p (p ++ l) = some l := by
  induction p with
  | nil => rfl
  | cons c p' ih => simp [matchStart, ih]

theorem rsplitOnceChar_not_mem (sep : Char) (l : List Char) (h : ∀ c ∈ l, c ≠ sep) :
    rsplitOnceChar sep l = none := by
  induction l with
  | nil => rfl
  | cons c rest ih =>
    have hc : c ≠ sep := h c (by simp)
    have hr : rsplitOnceChar sep rest = none := ih (fun x hx => h x (by simp [hx]))
    simp [rsplitOnceChar, hr, hc]

theorem rsplitOnceChar_append (sep : Char) (a t : List Char) (h : ∀ c ∈ t, c ≠ sep) :
    rsplitOnceChar sep (a ++ sep :: t) = some (a, t) := by
  induction a with
  | nil => simp [rsplitOnceChar, rsplitOnceChar_not_mem sep t h]
  | cons c a' ih => simp [rsplitOnceChar, ih]

theorem isAlphanum_ne {c d : Char} (h : c.isAlphanum = true)
    (hd : d.isAlphanum = false) : c ≠ d := by
  intro e
  rw [e] at h
  rw [h] at hd
  simp at hd

/-! ### C5 -/

/-- C5: for every valid URI-form input, i.e. the provider URI
`spotify:track:s` with `s` a 22-character alphanumeric identifier,
`parse_track_id` succeeds and returns `s`. -/
theorem c5_uri_form (s : List Char) (hlen : s.length = 22)
    (halnum : ∀ c ∈ s, c.isAlphanum = true) :
    parse_track_id (("spotify:track:".data) ++ s) = some s := by
  have hcolon : ∀ c ∈ s, c ≠ ':' := fun c hc => isAlphanum_ne (halnum c hc) (by decide)
  have hpre : ("spotify:track:".data) = ("spotify:".data) ++ (("track".data) ++ [':']) := by
    decide
  have hdecomp : ("spotify:track:".data) ++ s
      = ("spotify:".data) ++ (("track".data) ++ ':' :: s) := by
    rw [hpre, List.append_assoc, List.append_assoc, List.singleton_append]
  have hsw : starts_with ("spotify:track:".data) (("spotify:track:".data) ++ s) = true := by
    unfold starts_with
    rw [matchStart_append]
    rfl
  have hne : s ≠ [] := by
    intro e
    rw [e] at hlen
    simp at hlen
  have hm : matchStart ("spotify:".data) (("spotify:track:".data) ++ s)
      = some (("track".data) ++ ':' :: s) := by
    rw [hdecomp]
    exact matchStart_append _ _
  have hr : rsplitOnceChar ':' (("track".data) ++ ':' :: s) = some ("track".data, s) :=
    rsplitOnceChar_append ':' ("track".data) s hcolon
  have hvalid : rsIdIsValid s = true := by
    simp only [rsIdIsValid, List.all_eq_true, Bool.and_eq_true, Bool.not_eq_true']
    exact ⟨by simp [hne], halnum⟩
  unfold parse_track_id
  rw [if_pos hsw]
  unfold rsTrackIdFromUri
  rw [hm]
  simp only [hr, if_pos rfl]
  simp [rsTrackIdFromId, hvalid]

/-- C5 witness: a concrete valid URI-form input. -/
theorem c5_uri_form_witness :
    parse_track_id (("spotify:track:".data) ++ ("aaaaaaaaaaaaaaaaaaaaaa".data)) =
      some ("aaaaaaaaaaaaaaaaaaaaaa".data) :=
  c5_uri_form ("aaaaaaaaaaaaaaaaaaaaaa".data) (by decide) (by decide)

/-! ### C4 -/

/-- C4 counterexample.  The claim fails on both of its halves.
First half: for the sharing-URL input ending in `/s?query` with
`s = "aaaaaaaaaaaaaaaaaaaaaa"` (22 alphanumerics) and `query = "si=x/y"`,
the code takes the substring after the last slash FIRST and only then strips
the query, so a query containing a slash makes it return `"y"` instead of
`s`; likewise an input ending in `/s` that happens to start with the URI
prefix is routed to the URI branch and rejected outright, instead of
returning `s`.  Second half: the input `"ab"` matches no recognized form —
it does not start with the URI prefix, is not 22 bytes long, and contains no
slash (so it is no path-and-query sharing URL) — yet normalization succeeds
with `"ab"` instead of failing with an invalid-identifier error. -/
theorem c4_counterexample :
    parse_track_id ("https://open.spotify.com/track/aaaaaaaaaaaaaaaaaaaaaa?si=x/y".data)
      = some ("y".data)
    ∧ parse_track_id ("spotify:track:x/aaaaaaaaaaaaaaaaaaaaaa".data) = none
    ∧ parse_track_id ("ab".data) = some ("ab".data)
    ∧ starts_with ("spotify:track:".data) ("ab".data) = false
    ∧ utf8Len ("ab".data) = 2
    ∧ '/' ∉ ("ab".data) := by
  refine ⟨by decide, by decide, by decide, by decide, by decide, by decide⟩

/-- C4 (amended): sharing-URL inputs ending in `/s` or `/s?query` normalize
to `s` provided the query contains no slash and the input does not start
with the `spotify:track:` URI prefix (the code takes the substring after the
last `/` and only then strips from the first `?`, so a slash inside the
query defeats it); and an input that matches neither the URI branch nor the
bare-22-byte branch fails exactly when its cleaned-up final segment is empty
or non-alphanumeric — in particular, short alphanumeric inputs succeed
rather than fail with an invalid-identifier error. -/
theorem c4_amended :
    (∀ p s q : List Char, s ≠ [] → (∀ c ∈ s, c.isAlphanum = true) →
      (∀ c ∈ q, c ≠ '/') →
      starts_with ("spotify:track:".data) (p ++ '/' :: (s ++ '?' :: q)) = false →
      starts_with ("spotify:track:".data) (p ++ '/' :: s) = false →
      parse_track_id (p ++ '/' :: (s ++ '?' :: q)) = some s ∧
        parse_track_id (p ++ '/' :: s) = some s)
    ∧ (∀ l : List Char, starts_with ("spotify:track:".data) l = false →
        (utf8Len l == 22 && l.all fun c => c.isAlphanum) = false →
        rsIdIsValid (cleanId l) = false →
        parse_track_id l = none) := by
  constructor
  · intro p s q hne halnum hq hsw1 hsw2
    have hslash : ∀ c ∈ s, c ≠ '/' := fun c hc => isAlphanum_ne (halnum c hc) (by decide)
    have hquest : ∀ c ∈ s, c ≠ '?' := fun c hc => isAlphanum_ne (halnum c hc) (by decide)
    have hvalid : rsIdIsValid s = true := by
      simp only [rsIdIsValid, List.all_eq_true, Bool.and_eq_true, Bool.not_eq_true']
      exact ⟨by simp [hne], halnum⟩
    constructor
    · have hnoslash : ∀ c ∈ s ++ '?' :: q, c ≠ '/' := by
        intro c hc
        rcases List.mem_append.mp hc with h | h
        · exact hslash c h
        · rcases List.mem_cons.mp h with rfl | h
          · decide
          · exact hq c h
      have hall : (((p ++ '/' :: (s ++ '?' :: q)).all fun c => c.isAlphanum) = false) := by
        rw [List.all_eq_false]
        exact ⟨'/', by simp, by decide⟩
      have hclean : cleanId (p ++ '/' :: (s ++ '?' :: q)) = s := by
        unfold cleanId
        rw [splitOnChar_append, splitOnChar_not_mem '/' (s ++ '?' :: q) hnoslash,
          List.getLastD_concat, splitOnChar_append,
          splitOnChar_not_mem '?' s hquest]
        rfl
      unfold parse_track_id
      rw [if_neg (by simp [hsw1]), if_neg (by simp [hall]), hclean]
      simp [rsTrackIdFromId, hvalid]
    · have hall : (((p ++ '/' :: s).all fun c => c.isAlphanum) = false) := by
        rw [List.all_eq_false]
        exact ⟨'/', by simp, by decide⟩
      have hclean : cleanId (p ++ '/' :: s) = s := by
        unfold cleanId
        rw [splitOnChar_append, splitOnChar_not_mem '/' s hslash,
          List.getLastD_concat, splitOnChar_not_mem '?' s hquest]
        rfl
      unfold parse_track_id
      rw [if_neg (by simp [hsw2]), if_neg (by simp [hall]), hclean]
      simp [rsTrackIdFromId, hvalid]
  · intro l hsw hbare hinvalid
    unfold parse_track_id
    rw [if_neg (by simp [hsw]), if_neg (by simp [hbare])]
    simp [rsTrackIdFromId, hinvalid]

/-- C4 (amended) witness: a concrete sharing URL with a slash-free query
normalizes to its final path segment, and a concrete non-alphanumeric input
fails. -/
theorem c4_amended_witness :
    parse_track_id (("https://open.spotify.com/track".data) ++ '/' ::
        (("aaaaaaaaaaaaaaaaaaaaaa".data) ++ '?' :: ("si=xy".data))) =
      some ("aaaaaaaaaaaaaaaaaaaaaa".data)
    ∧ parse_track_id ("!!!".data) = none :=
  ⟨(c4_amended.1 ("https://open.spotify.com/track".data) ("aaaaaaaaaaaaaaaaaaaaaa".data)
      ("si=xy".data) (by decide) (by decide) (by decide) (by decide) (by decide)).1,
   c4_amended.2 ("!!!".data) (by decide) (by decide) (by decide)⟩
/-! ### The verification engine: C1, C3, C6, C7, C9, C10 -/

/-- Helper: when every remaining loop read successfully reports the opposite
of the desired state (and the attempt budget is at least 2, so the reissue
guard does not underflow), the loop exhausts: success is false, the reported
attempt count is the full budget, every attempt sleeps its backoff delay, and
the corrective write is re-issued exactly on the attempts at or above
`maxAttempts - 2`. -/
theorem verifyLoop_all_opposite (desired : Bool) (reads : Nat → ReadOutcome)
    (d max : Nat) (h2 : 2 ≤ max) (l : List Nat)
    (hl : ∀ a ∈ l, reads a = .reported (!desired)) :
    ∃ e, verifyLoop desired reads d max l =
      .ok ⟨⟨false, e, max⟩, l.map (fun a => (d + (a - 1) * 500) % 2 ^ 64),
           l.filter (fun a => decide (max - 2 ≤ a))⟩ := by
  induction l with
  | nil => exact ⟨0, rfl⟩
  | cons a l' ih =>
    obtain ⟨e', he'⟩ := ih (fun x hx => hl x (by simp [hx]))
    have ha : reads a = .reported (!desired) := hl a (by simp)
    have hsub : u32Sub max 2 = some (max - 2) := by simp [u32Sub, h2]
    refine ⟨((d + (a - 1) * 500) % 2 ^ 64 + e') % 2 ^ 64, ?_⟩
    simp only [verifyLoop, ha, if_neg (Bool.not_ne_self desired), hsub, he', List.map_cons,
      List.filter_cons]
    by_cases hth : max - 2 ≤ a
    · simp [hth]
    · simp [hth]

/-- Helper: the loop cannot tell a transient read failure from an
authentication read failure — two oracles that only ever fail (in either way)
drive the loop to identical outcomes. -/
theorem verifyLoop_err_congr (desired : Bool) (r1 r2 : Nat → ReadOutcome)
    (d max : Nat) (l : List Nat)
    (h1 : ∀ a ∈ l, r1 a = .transientErr ∨ r1 a = .authErr)
    (h2 : ∀ a ∈ l, r2 a = .transientErr ∨ r2 a = .authErr) :
    verifyLoop desired r1 d max l = verifyLoop desired r2 d max l := by
  induction l with
  | nil => rfl
  | cons a l' ih =>
    have ihh := ih (fun x hx => h1 x (by simp [hx])) (fun x hx => h2 x (by simp [hx]))
    rcases h1 a (by simp) with ha1 | ha1 <;> rcases h2 a (by simp) with ha2 | ha2 <;>
      simp only [verifyLoop, ha1, ha2, ihh]

/-- Helper: when every remaining read errors (transiently or with an
authentication failure), the loop consumes all attempts, reports failure with
the full attempt count, sleeps every backoff delay, and never issues a
corrective write. -/
theorem verifyLoop_all_err (desired : Bool) (reads : Nat → ReadOutcome)
    (d max : Nat) (l : List Nat)
    (hl : ∀ a ∈ l, reads a = .transientErr ∨ reads a = .authErr) :
    ∃ e, verifyLoop desired reads d max l =
      .ok ⟨⟨false, e, max⟩, l.map (fun a => (d + (a - 1) * 500) % 2 ^ 64), []⟩ := by
  induction l with
  | nil => exact ⟨0, rfl⟩
  | cons a l' ih =>
    obtain ⟨e', he'⟩ := ih (fun x hx => hl x (by simp [hx]))
    refine ⟨((d + (a - 1) * 500) % 2 ^ 64 + e') % 2 ^ 64, ?_⟩
    rcases hl a (by simp) with ha | ha <;> simp only [verifyLoop, ha, he', List.map_cons]

/-- Helper: if no remaining read reports the desired state (reads may report
the opposite or error, mixed), the loop terminates normally with success false
and the full attempt count, provided the budget is at least 2. -/
theorem verifyLoop_no_desired (desired : Bool) (reads : Nat → ReadOutcome)
    (d max : Nat) (h2 : 2 ≤ max) (l : List Nat)
    (hl : ∀ a ∈ l, reads a ≠ .reported desired) :
    ∃ t, verifyLoop desired reads d max l = .ok t ∧
      t.result.success = false ∧ t.result.attempts = max := by
  induction l with
  | nil => exact ⟨⟨⟨false, 0, max⟩, [], []⟩, rfl, rfl, rfl⟩
  | cons a l' ih =>
    obtain ⟨t', ht', hs', ha'⟩ := ih (fun x hx => hl x (by simp [hx]))
    have hsub : u32Sub max 2 = some (max - 2) := by simp [u32Sub, h2]
    cases ha : reads a with
    | reported b =>
      have hb : b ≠ desired := by
        intro e
        exact hl a (by simp) (by rw [ha, e])
      exact ⟨⟨⟨t'.result.success,
          ((d + (a - 1) * 500) % 2 ^ 64 + t'.result.verified_after_ms) % 2 ^ 64,
          t'.result.attempts⟩,
          (d + (a - 1) * 500) % 2 ^ 64 :: t'.sleeps,
          (if max - 2 ≤ a then [a] else []) ++ t'.correctiveWrites⟩,
        by simp only [verifyLoop, ha, if_neg hb, hsub, ht'], hs', ha'⟩
    | transientErr =>
      exact ⟨⟨⟨t'.result.success,
          ((d + (a - 1) * 500) % 2 ^ 64 + t'.result.verified_after_ms) % 2 ^ 64,
          t'.result.attempts⟩,
          (d + (a - 1) * 500) % 2 ^ 64 :: t'.sleeps, t'.correctiveWrites⟩,
        by simp only [verifyLoop, ha, ht'], hs', ha'⟩
    | authErr =>
      exact ⟨⟨⟨t'.result.success,
          ((d + (a - 1) * 500) % 2 ^ 64 + t'.result.verified_after_ms) % 2 ^ 64,
          t'.result.attempts⟩,
          (d + (a - 1) * 500) % 2 ^ 64 :: t'.sleeps, t'.correctiveWrites⟩,
        by simp only [verifyLoop, ha, ht'], hs', ha'⟩

/-- Helper: any normally-returned loop result has `attempts = maxAttempts`
when it failed, and an attempt number among the iterated ones when it
succeeded. -/
theorem verifyLoop_result_inv (desired : Bool) (reads : Nat → ReadOutcome)
    (d max : Nat) (l : List Nat) (t : VerifyTrace)
    (h : verifyLoop desired reads d max l = .ok t) :
    (t.result.success = false → t.result.attempts = max) ∧
      (t.result.success = true → t.result.attempts ∈ l) := by
  induction l generalizing t with
  | nil =>
    cases h
    exact ⟨fun _ => rfl, fun hs => by simp at hs⟩
  | cons a l' ih =>
    simp only [verifyLoop] at h
    cases ha : reads a with
    | reported b =>
      simp only [ha] at h
      by_cases hb : b = desired
      · rw [if_pos hb] at h
        cases h
        exact ⟨fun hs => by simp at hs, fun _ => by simp⟩
      · rw [if_neg hb] at h
        cases hsub : u32Sub max 2 with
        | none => rw [hsub] at h; cases h
        | some threshold =>
          rw [hsub] at h
          cases hrec : verifyLoop desired reads d max l' with
          | error e => rw [hrec] at h; cases h
          | ok t' =>
            rw [hrec] at h
            cases h
            obtain ⟨hf, htr⟩ := ih t' hrec
            exact ⟨hf, fun hs => by simp [htr hs]⟩
    | transientErr =>
      simp only [ha] at h
      cases hrec : verifyLoop desired reads d max l' with
      | error e => rw [hrec] at h; cases h
      | ok t' =>
        rw [hrec] at h
        cases h
        obtain ⟨hf, htr⟩ := ih t' hrec
        exact ⟨hf, fun hs => by simp [htr hs]⟩
    | authErr =>
      simp only [ha] at h
      cases hrec : verifyLoop desired reads d max l' with
      | error e => rw [hrec] at h; cases h
      | ok t' =>
        rw [hrec] at h
        cases h
        obtain ⟨hf, htr⟩ := ih t' hrec
        exact ⟨hf, fun hs => by simp [htr hs]⟩

/-- Helper: with an attempt budget of at least 2 the reissue guard cannot
underflow, so the loop never panics. -/
theorem verifyLoop_ne_error (desired : Bool) (reads : Nat → ReadOutcome)
    (d max : Nat) (h2 : 2 ≤ max) (l : List Nat) :
    verifyLoop desired reads d max l ≠ .error () := by
  induction l with
  | nil => simp [verifyLoop]
  | cons a l' ih =>
    have hsub : u32Sub max 2 = some (max - 2) := by simp [u32Sub, h2]
    cases hrec : verifyLoop desired reads d max l' with
    | error e => exact absurd hrec ih
    | ok t' =>
      cases ha : reads a with
      | reported b =>
        by_cases hb : b = desired
        · simp [verifyLoop, ha, hb]
        · simp [verifyLoop, ha, if_neg hb, hsub, hrec]
      | transientErr => simp [verifyLoop, ha, hrec]
      | authErr => simp [verifyLoop, ha, hrec]

/-- Helper: the executed sleeps of a normally-returned loop run are the
backoff delays of an initial segment of the iterated attempts. -/
theorem verifyLoop_sleeps (desired : Bool) (reads : Nat → ReadOutcome)
    (d max : Nat) (l : List Nat) (t : VerifyTrace)
    (h : verifyLoop desired reads d max l = .ok t) :
    t.sleeps = (l.take t.sleeps.length).map (fun a => (d + (a - 1) * 500) % 2 ^ 64) := by
  induction l generalizing t with
  | nil =>
    cases h
    rfl
  | cons a l' ih =>
    simp only [verifyLoop] at h
    cases ha : reads a with
    | reported b =>
      simp only [ha] at h
      by_cases hb : b = desired
      · rw [if_pos hb] at h
        cases h
        rfl
      · rw [if_neg hb] at h
        cases hsub : u32Sub max 2 with
        | none => rw [hsub] at h; cases h
        | some threshold =>
          rw [hsub] at h
          cases hrec : verifyLoop desired reads d max l' with
          | error e => rw [hrec] at h; cases h
          | ok t' =>
            rw [hrec] at h
            cases h
            have hs' := ih t' hrec
            simp only [List.length_cons, List.take_succ_cons, List.map_cons]
            rw [← hs']
    | transientErr =>
      simp only [ha] at h
      cases hrec : verifyLoop desired reads d max l' with
      | error e => rw [hrec] at h; cases h
      | ok t' =>
        rw [hrec] at h
        cases h
        have hs' := ih t' hrec
        simp only [List.length_cons, List.take_succ_cons, List.map_cons]
        rw [← hs']
    | authErr =>
      simp only [ha] at h
      cases hrec : verifyLoop desired reads d max l' with
      | error e => rw [hrec] at h; cases h
      | ok t' =>
        rw [hrec] at h
        cases h
        have hs' := ih t' hrec
        simp only [List.length_cons, List.take_succ_cons, List.map_cons]
        rw [← hs']

/-- Helper: when the pre-flight read does not report the desired state, the
run is exactly the loop over attempts `1..=maxAttempts`. -/
theorem verifyTrack_eq_loop (desired : Bool) (reads : Nat → ReadOutcome)
    (d max : Nat) (h0 : reads 0 ≠ .reported desired) :
    verifyTrack desired reads d max =
      verifyLoop desired reads d max (List.range' 1 max) := by
  cases hr0 : reads 0 with
  | reported b =>
    have hb : b ≠ desired := fun e => h0 (by rw [hr0, e])
    simp only [verifyTrack, hr0, if_neg hb]
  | transientErr => simp only [verifyTrack, hr0]
  | authErr => simp only [verifyTrack, hr0]

/-- C6: if the very first membership read — the pre-flight check before the
retry loop — already reports the desired state, the run returns success with
`attempts = 0`, zero elapsed time (the model counts only sleeps), and an
empty sleep trace: no backoff sleep is executed.  This covers
`verify_track_liked` (`desired = true`) and `verify_track_unliked`
(`desired = false`). -/
theorem c6_preflight (desired : Bool) (reads : Nat → ReadOutcome) (d max : Nat)
    (h : reads 0 = .reported desired) :
    verifyTrack desired reads d max = .ok ⟨⟨true, 0, 0⟩, [], []⟩ := by
  simp [verifyTrack, h]

/-- C6 witness: concrete pre-flight success under the default
configuration. -/
theorem c6_preflight_witness :
    verifyTrack true (fun _ => .reported true) 1000 8 = .ok ⟨⟨true, 0, 0⟩, [], []⟩ :=
  c6_preflight true (fun _ => .reported true) 1000 8 rfl

/-- C1 counterexample: a default-configured run in which the membership read
never reports the desired state — every read errs transiently — returns
`success = false` with `attempts = 8` as claimed, but its corrective-write
trace is empty: the re-issue only happens in the successfully-read-opposite
branch, so no corrective write at all is issued during the final two (or any)
attempts. -/
theorem c1_counterexample :
    SpotifyManager.new.verify_track_liked (fun _ => .transientErr) =
      .ok ⟨⟨false, 22000, 8⟩, [1000, 1500, 2000, 2500, 3000, 3500, 4000, 4500], []⟩ := by
  decide

/-- C1 (amended): for every verification run in which the pre-flight read
does not report the desired state and every loop read SUCCESSFULLY reports
the opposite of the desired state (budget at least 2), the engine returns
`success = false` with `attempts = max_verification_attempts`, and the
corrective write is re-issued on the last two attempts before exhaustion
(both `max - 1` and `max` are in the corrective-write trace) — so at least
one corrective write is issued during the final two attempts.  (If reads err
instead of reporting the opposite, no corrective write is issued on those
attempts.) -/
theorem c1_amended (desired : Bool) (reads : Nat → ReadOutcome) (d max : Nat)
    (h2 : 2 ≤ max) (h0 : reads 0 ≠ .reported desired)
    (hl : ∀ k, 1 ≤ k → k ≤ max → reads k = .reported (!desired)) :
    ∃ t, verifyTrack desired reads d max = .ok t ∧
      t.result.success = false ∧ t.result.attempts = max ∧
      (max - 1) ∈ t.correctiveWrites ∧ max ∈ t.correctiveWrites := by
  have hl' : ∀ a ∈ List.range' 1 max, reads a = .reported (!desired) := by
    intro a hla
    rw [List.mem_range'_1] at hla
    exact hl a hla.1 (by omega)
  obtain ⟨e, he⟩ := verifyLoop_all_opposite desired reads d max h2 (List.range' 1 max) hl'
  have hmem : ∀ x, 1 ≤ x → x ≤ max → max - 2 ≤ x →
      x ∈ (List.range' 1 max).filter (fun a => decide (max - 2 ≤ a)) := by
    intro x h1 hx hth
    rw [List.mem_filter, List.mem_range'_1]
    exact ⟨⟨h1, by omega⟩, by simpa using hth⟩
  refine ⟨_, (verifyTrack_eq_loop desired reads d max h0).trans he, rfl, rfl, ?_, ?_⟩
  · exact hmem (max - 1) (by omega) (by omega) (by omega)
  · exact hmem max (by omega) (by omega) (by omega)

/-- C1 (amended) witness: the default configuration with every read
reporting the opposite state. -/
theorem c1_amended_witness :
    ∃ t, verifyTrack true (fun _ => .reported false) 1000 8 = .ok t ∧
      t.result.success = false ∧ t.result.attempts = 8 ∧
      7 ∈ t.correctiveWrites ∧ 8 ∈ t.correctiveWrites :=
  c1_amended true (fun _ => .reported false) 1000 8 (by decide) (by decide)
    (fun _ _ _ => rfl)

/-- C3 counterexample: a run whose every membership read fails with an
authentication failure is NOT surfaced to the caller as an error — it is
absorbed into the retry loop exactly like a transient failure, consuming all
8 attempts and returning a normal unconverged result; the authentication-
failing run and the transient-failing run are indistinguishable. -/
theorem c3_counterexample :
    SpotifyManager.new.verify_track_liked (fun _ => .authErr) =
      .ok ⟨⟨false, 22000, 8⟩, [1000, 1500, 2000, 2500, 3000, 3500, 4000, 4500], []⟩
    ∧ SpotifyManager.new.verify_track_liked (fun _ => .authErr) =
        SpotifyManager.new.verify_track_liked (fun _ => .transientErr) :=
  ⟨by decide, by decide⟩

/-- C3 (amended): inside the verification retry loop every read failure —
transient or authentication alike — is recorded and the loop continues to
the next attempt; no error class is surfaced from within the loop.  Two runs
whose reads only ever fail, in either way, produce identical outcomes, and
such a run terminates normally with `success = false` and the full attempt
count rather than propagating the failure. -/
theorem c3_amended (desired : Bool) (r1 r2 : Nat → ReadOutcome) (d max : Nat)
    (h1 : ∀ k, r1 k = .transientErr ∨ r1 k = .authErr)
    (h2 : ∀ k, r2 k = .transientErr ∨ r2 k = .authErr) :
    verifyTrack desired r1 d max = verifyTrack desired r2 d max
    ∧ ∃ t, verifyTrack desired r1 d max = .ok t ∧
        t.result.success = false ∧ t.result.attempts = max := by
  have h01 : r1 0 ≠ .reported desired := by
    rcases h1 0 with h | h <;> simp [h]
  have h02 : r2 0 ≠ .reported desired := by
    rcases h2 0 with h | h <;> simp [h]
  have hv1 := verifyTrack_eq_loop desired r1 d max h01
  have hv2 := verifyTrack_eq_loop desired r2 d max h02
  constructor
  · rw [hv1, hv2]
    exact verifyLoop_err_congr desired r1 r2 d max _ (fun a _ => h1 a) (fun a _ => h2 a)
  · obtain ⟨e, he⟩ := verifyLoop_all_err desired r1 d max (List.range' 1 max) (fun a _ => h1 a)
    exact ⟨_, hv1.trans he, rfl, rfl⟩

/-- C3 (amended) witness: all-transient versus all-authentication failures
at the default configuration. -/
theorem c3_amended_witness :
    verifyTrack true (fun _ => .transientErr) 1000 8 =
      verifyTrack true (fun _ => .authErr) 1000 8
    ∧ ∃ t, verifyTrack true (fun _ => .transientErr) 1000 8 = .ok t ∧
        t.result.success = false ∧ t.result.attempts = 8 :=
  c3_amended true (fun _ => .transientErr) (fun _ => .authErr) 1000 8
    (fun _ => Or.inl rfl) (fun _ => Or.inr rfl)

/-- Helper: in any normally-returned run, the i-th executed sleep (0-based,
so loop attempt `k = i + 1`) lasts `delayMs + i * 500` ms (mod 2^64), i.e.
`base_delay + (attempt - 1) * step_delay` with the hard-coded 500 ms step. -/
theorem verifyTrack_sleeps (desired : Bool) (reads : Nat → ReadOutcome)
    (d max : Nat) (t : VerifyTrace) (ht : verifyTrack desired reads d max = .ok t) :
    ∀ i, (hi : i < t.sleeps.length) → t.sleeps[i] = (d + i * 500) % 2 ^ 64 := by
  intro i hi
  cases hr0 : reads 0 with
  | reported b =>
    by_cases hb : b = desired
    · simp only [verifyTrack, hr0, if_pos hb] at ht
      cases ht
      simp at hi
    · simp only [verifyTrack, hr0, if_neg hb] at ht
      have hs := verifyLoop_sleeps desired reads d max (List.range' 1 max) t ht
      simp only [List.getElem_of_eq hs, List.getElem_map, List.getElem_take,
        List.getElem_range'_1]
      have he : 1 + i - 1 = i := by omega
      rw [he]
  | transientErr =>
    simp only [verifyTrack, hr0] at ht
    have hs := verifyLoop_sleeps desired reads d max (List.range' 1 max) t ht
    simp only [List.getElem_of_eq hs, List.getElem_map, List.getElem_take,
      List.getElem_range'_1]
    have he : 1 + i - 1 = i := by omega
    rw [he]
  | authErr =>
    simp only [verifyTrack, hr0] at ht
    have hs := verifyLoop_sleeps desired reads d max (List.range' 1 max) t ht
    simp only [List.getElem_of_eq hs, List.getElem_map, List.getElem_take,
      List.getElem_range'_1]
    have he : 1 + i - 1 = i := by omega
    rw [he]

/-- Helper: a run executes at most `maxAttempts` sleeps. -/
theorem verifyTrack_sleeps_length (desired : Bool) (reads : Nat → ReadOutcome)
    (d max : Nat) (t : VerifyTrace) (ht : verifyTrack desired reads d max = .ok t) :
    t.sleeps.length ≤ max := by
  cases hr0 : reads 0 with
  | reported b =>
    by_cases hb : b = desired
    · simp only [verifyTrack, hr0, if_pos hb] at ht
      cases ht
      simp
    · simp only [verifyTrack, hr0, if_neg hb] at ht
      have hs := verifyLoop_sleeps desired reads d max (List.range' 1 max) t ht
      have := congrArg List.length hs
      simp only [List.length_map, List.length_take, List.length_range'] at this
      omega
  | transientErr =>
    simp only [verifyTrack, hr0] at ht
    have hs := verifyLoop_sleeps desired reads d max (List.range' 1 max) t ht
    have := congrArg List.length hs
    simp only [List.length_map, List.length_take, List.length_range'] at this
    omega
  | authErr =>
    simp only [verifyTrack, hr0] at ht
    have hs := verifyLoop_sleeps desired reads d max (List.range' 1 max) t ht
    have := congrArg List.length hs
    simp only [List.length_map, List.length_take, List.length_range'] at this
    omega

/-- C7: for every attempt `k` in `1..=max_attempts` that the verification
loop reaches, the sleep preceding the k-th membership read lasts exactly
`base_delay + (k - 1) * 500` ms (as a `u64`, hence mod 2^64; the step delay
is the hard-coded 500 ms), and the default configuration built by
`SpotifyManager::new` uses `base_delay = 1000` ms and `max_attempts = 8`,
for which the formula is exact: `1000 + (k - 1) * 500`. -/
theorem c7_backoff :
    (∀ (desired : Bool) (reads : Nat → ReadOutcome) (d max : Nat) (t : VerifyTrace),
      verifyTrack desired reads d max = .ok t →
      ∀ i, (hi : i < t.sleeps.length) → t.sleeps[i] = (d + i * 500) % 2 ^ 64)
    ∧ SpotifyManager.new.verification_delay_ms = 1000
    ∧ SpotifyManager.new.max_verification_attempts = 8
    ∧ (∀ (reads : Nat → ReadOutcome) (t : VerifyTrace),
      SpotifyManager.new.verify_track_liked reads = .ok t →
      ∀ i, (hi : i < t.sleeps.length) → t.sleeps[i] = 1000 + i * 500) := by
  refine ⟨verifyTrack_sleeps, by decide, by decide, ?_⟩
  intro reads t ht i hi
  have ht' : verifyTrack true reads 1000 8 = .ok t := ht
  have hgen := verifyTrack_sleeps true reads 1000 8 t ht' i hi
  have hlen := verifyTrack_sleeps_length true reads 1000 8 t ht'
  rw [hgen, Nat.mod_eq_of_lt (by omega)]

/-- C7 witness: the default-configuration exhausting run sleeps
1000, 1500, ..., 4500 ms; its third sleep (attempt 3) is
`1000 + 2 * 500`. -/
theorem c7_backoff_witness :
    SpotifyManager.new.verification_delay_ms = 1000
    ∧ (verifyTrack true (fun _ => .reported false) 1000 8 =
        .ok ⟨⟨false, 22000, 8⟩, [1000, 1500, 2000, 2500, 3000, 3500, 4000, 4500], [6, 7, 8]⟩)
    ∧ ([1000, 1500, 2000, 2500, 3000, 3500, 4000, 4500] : List Nat)[2] =
        (1000 + 2 * 500) % 2 ^ 64 := by
  refine ⟨c7_backoff.2.1, by decide, ?_⟩
  exact c7_backoff.1 true (fun _ => .reported false) 1000 8
    ⟨⟨false, 22000, 8⟩, [1000, 1500, 2000, 2500, 3000, 3500, 4000, 4500], [6, 7, 8]⟩
    (by decide) 2 (by decide)

/-- C9: the corrective re-issue condition evaluates the unsigned
subtraction `max_verification_attempts - 2`: it does not underflow for any
manager configured with `max_verification_attempts >= 2` (and then no run
can panic), while `with_config` accepts the values 0 and 1, for which the
subtraction underflows — with the value 1 a run that reaches the guard
actually panics (debug-build overflow panic, modelled as `Except.error`).
So the guard is only well-defined under `max_verification_attempts >= 2`. -/
theorem c9_guard :
    (∀ max, 2 ≤ max → u32Sub max 2 = some (max - 2))
    ∧ u32Sub 0 2 = none
    ∧ u32Sub 1 2 = none
    ∧ (SpotifyManager.with_config 1000 0).max_verification_attempts = 0
    ∧ (SpotifyManager.with_config 1000 1).max_verification_attempts = 1
    ∧ (SpotifyManager.with_config 1000 1).verify_track_liked (fun _ => .reported false)
        = .error ()
    ∧ (∀ (desired : Bool) (reads : Nat → ReadOutcome) (d max : Nat), 2 ≤ max →
        verifyTrack desired reads d max ≠ .error ()) := by
  refine ⟨fun max h2 => by simp [u32Sub, h2], by decide, by decide, by decide, by decide,
    by decide, ?_⟩
  intro desired reads d max h2
  cases hr0 : reads 0 with
  | reported b =>
    by_cases hb : b = desired
    · simp [verifyTrack, hr0, hb]
    · simp only [verifyTrack, hr0, if_neg hb]
      exact verifyLoop_ne_error desired reads d max h2 _
  | transientErr =>
    simp only [verifyTrack, hr0]
    exact verifyLoop_ne_error desired reads d max h2 _
  | authErr =>
    simp only [verifyTrack, hr0]
    exact verifyLoop_ne_error desired reads d max h2 _

/-- C9 witness: at budget 5 the subtraction is defined and the run cannot
panic. -/
theorem c9_guard_witness :
    u32Sub 5 2 = some 3
    ∧ verifyTrack true (fun _ => .reported false) 1000 5 ≠ .error () := by
  obtain ⟨h1, _, _, _, _, _, h7⟩ := c9_guard
  exact ⟨h1 5 (by decide), h7 true (fun _ => .reported false) 1000 5 (by decide)⟩

/-- C10: every normally-produced `VerificationResult` satisfies the
invariant `success = false → attempts = max_verification_attempts` and
`success = true → attempts ≤ max_verification_attempts` (`attempts ≥ 0` holds
by the `Nat` model); and when verification exhausts its budget (no read ever
reports the desired state, budget at least 2) the function still returns
`Ok` — exhaustion is encoded in the value, not as an `Err`. -/
theorem c10_result_invariant :
    (∀ (desired : Bool) (reads : Nat → ReadOutcome) (d max : Nat) (t : VerifyTrace),
      verifyTrack desired reads d max = .ok t →
      (t.result.success = false → t.result.attempts = max)
      ∧ (t.result.success = true → t.result.attempts ≤ max))
    ∧ (∀ (desired : Bool) (reads : Nat → ReadOutcome) (d max : Nat), 2 ≤ max →
      (∀ k, reads k ≠ .reported desired) →
      ∃ t, verifyTrack desired reads d max = .ok t ∧
        t.result.success = false ∧ t.result.attempts = max) := by
  constructor
  · intro desired reads d max t ht
    cases hr0 : reads 0 with
    | reported b =>
      by_cases hb : b = desired
      · simp only [verifyTrack, hr0, if_pos hb] at ht
        cases ht
        exact ⟨fun hs => by simp at hs, fun _ => Nat.zero_le max⟩
      · simp only [verifyTrack, hr0, if_neg hb] at ht
        obtain ⟨hf, hs⟩ := verifyLoop_result_inv desired reads d max _ t ht
        refine ⟨hf, fun h => ?_⟩
        have hmem := hs h
        rw [List.mem_range'_1] at hmem
        omega
    | transientErr =>
      simp only [verifyTrack, hr0] at ht
      obtain ⟨hf, hs⟩ := verifyLoop_result_inv desired reads d max _ t ht
      refine ⟨hf, fun h => ?_⟩
      have hmem := hs h
      rw [List.mem_range'_1] at hmem
      omega
    | authErr =>
      simp only [verifyTrack, hr0] at ht
      obtain ⟨hf, hs⟩ := verifyLoop_result_inv desired reads d max _ t ht
      refine ⟨hf, fun h => ?_⟩
      have hmem := hs h
      rw [List.mem_range'_1] at hmem
      omega
  · intro desired reads d max h2 hreads
    have h0 : reads 0 ≠ .reported desired := hreads 0
    rw [verifyTrack_eq_loop desired reads d max h0]
    exact verifyLoop_no_desired desired reads d max h2 _ (fun a _ => hreads a)

/-- C10 witness: a concrete exhausted run returns `Ok` with
`attempts = max`, and a concrete pre-flight success satisfies
`attempts ≤ max`. -/
theorem c10_result_invariant_witness :
    (∃ t, verifyTrack true (fun _ => .reported false) 1000 3 = .ok t ∧
      t.result.success = false ∧ t.result.attempts = 3)
    ∧ ((⟨⟨true, 0, 0⟩, [], []⟩ : VerifyTrace).result.success = true →
        (⟨⟨true, 0, 0⟩, [], []⟩ : VerifyTrace).result.attempts ≤ 8) := by
  constructor
  · refine c10_result_invariant.2 true (fun _ => .reported false) 1000 3 (by decide) ?_
    intro k
    simp
  · exact (c10_result_invariant.1 true (fun _ => .reported true) 1000 8
      ⟨⟨true, 0, 0⟩, [], []⟩ rfl).2

/-! ### The token lifecycle: C2 -/

/-- C2 counterexample: a token whose `expires_at` (0) lies in the past
(`now = 100`) is visibly expired, yet when the probe call succeeds,
`ensure_token_valid` performs no refresh and lets the subsequent
authenticated call proceed with that same expired token: the code never
inspects `expires_at`, it only reacts to a failing probe. -/
theorem c2_counterexample :
    Token.isExpiredAt ⟨"at".data, some "rt".data, some 0⟩ 100 = true
    ∧ ensure_token_valid ⟨"at".data, some "rt".data, some 0⟩ true none =
        .ok (⟨"at".data, some "rt".data, some 0⟩, false) :=
  ⟨by decide, rfl⟩

/-- C2 (amended): `ensure_token_valid` validates reactively, not proactively:
it never consults `expires_at`.  When the probe call succeeds the operation
proceeds with the live token unchanged and no refresh — even if `expires_at`
has passed; only when the probe fails does it refresh before the
authenticated call executes, and then the operation proceeds exactly when the
refresh succeeded, with the refreshed token installed. -/
theorem c2_amended (tok : Token) (probeOk : Bool) (refreshResult : Option Token) :
    (probeOk = true → ensure_token_valid tok probeOk refreshResult = .ok (tok, false))
    ∧ (probeOk = false → ∀ t r, ensure_token_valid tok probeOk refreshResult = .ok (t, r) →
        r = true ∧ refreshResult = some t)
    ∧ (probeOk = false → refreshResult = none →
        ensure_token_valid tok probeOk refreshResult = .error ()) := by
  refine ⟨fun hp => by simp [ensure_token_valid, hp], fun hp t r h => ?_, fun hp hr => by
    simp [ensure_token_valid, hp, hr]⟩
  unfold ensure_token_valid at h
  rw [if_neg (by simp [hp])] at h
  cases hr : refreshResult with
  | none => rw [hr] at h; cases h
  | some t' =>
    rw [hr] at h
    cases h
    exact ⟨rfl, rfl⟩

/-- C2 (amended) witness: a successful probe proceeds unchanged; a failed
probe with a successful refresh installs the refreshed token. -/
theorem c2_amended_witness :
    ensure_token_valid ⟨"a".data, none, some 5⟩ true none =
      .ok (⟨"a".data, none, some 5⟩, false)
    ∧ (true = true ∧ (some ⟨"b".data, none, none⟩ : Option Token) =
        some ⟨"b".data, none, none⟩) :=
  ⟨(c2_amended ⟨"a".data, none, some 5⟩ true none).1 rfl,
   (c2_amended ⟨"a".data, none, some 5⟩ false (some ⟨"b".data, none, none⟩)).2.1 rfl
     ⟨"b".data, none, none⟩ true rfl⟩

/-! ### The token store: C8 -/

/-- C8: `clear_token_cache` is idempotent: clearing twice in a row both
succeed — clearing an already-absent record is success, not an error — and a
load (`read_token_cache`) after either call finds no persisted record
(`none`, the `NotFound` outcome). -/
theorem c8_clear_idempotent (cache : Option Token) :
    (clear_token_cache cache).2 = .ok ()
    ∧ (clear_token_cache (clear_token_cache cache).1).2 = .ok ()
    ∧ read_token_cache (clear_token_cache cache).1 = none
    ∧ read_token_cache (clear_token_cache (clear_token_cache cache).1).1 = none := by
  cases cache <;> exact ⟨rfl, rfl, rfl, rfl⟩
